import Mathlib

/-!
Verification of the impedance-calculation pipeline (`CalcZ.py`).

The script converts a charge time series into admittance / impedance
spectra.  We embed its pure numeric kernels over `ℝ` and `ℂ`:

* `FilonLagrange` — the closed-form Fourier–Laplace quadrature (lines 19–58);
* `LagrangeInterpol` / `lagrangeCoeffs` — the per-triple quadratic fits
  (lines 60–89);
* `AdmFromQ` / `AdmFromDFT` — the fluctuation–dissipation mapping to
  admittance (lines 91–118) and `Imp`, the elementwise reciprocal
  (line 207);
* `Window` — the pointwise decay window (lines 140–161);
* `freq` / `logspace` — the log-spaced frequency grid (lines 201–203);
* the script-level numeric constants (lines 166–178).

Machine floating point is modelled by exact real arithmetic; division by
zero follows the ambient field convention `x / 0 = 0`.
-/

namespace CalcZ

noncomputable section

/-- `temperature = 298` (line 167). -/
def temperature : ℝ := 298

/-- `timeperstep = 1E-15` (line 168). -/
def timeperstep : ℝ := 1e-15

/-- `nfreq = 100` (line 169). -/
def nfreq : ℕ := 100

/-- Boltzmann constant, `k = 1.3806485279e-23` in the source (line 172). -/
def kconst : ℝ := 1.3806485279e-23

/-- Elementary charge, `e = 1.602176620898e-19` in the source (line 173). -/
def echarge : ℝ := 1.602176620898e-19

/-- `beta = 1/(k*temperature)` (line 174). -/
def beta : ℝ := 1 / (kconst * temperature)

/-- Window decay rate `ep = 18.9e9` (line 177). -/
def ep : ℝ := 18.9e9

/-- Window decay time `tau = 0.5e-9` (line 178). -/
def tau : ℝ := 0.5e-9

/-- Number of iterations of the stride-2 segment loops
(`range(0, len(Time)-2, 2)` in `FilonLagrange`,
`range(1, len(Time)-1, 2)` in `LagrangeInterpol`): one segment per
consecutive non-overlapping triple of samples. -/
def nseg (Time : List ℝ) : ℕ := (Time.length - 1) / 2

/-- The summand added to `DFT[ifreq]` for one segment in `FilonLagrange`
(lines 52–55), transcribed literally. -/
def filonTerm (ff t1 t2 a b c : ℝ) : ℂ :=
  (1 / (ff : ℂ) ^ 3) *
    (Complex.exp (-Complex.I * (ff : ℂ) * (t2 : ℂ)) *
        ((a : ℂ) * ((ff : ℂ) * (t2 : ℂ) * (2 + Complex.I * (ff : ℂ) * (t2 : ℂ)) - 2 * Complex.I)
          + (ff : ℂ) * (Complex.I * (b : ℂ) * (ff : ℂ) * (t2 : ℂ) + (b : ℂ)
              + Complex.I * (c : ℂ) * (ff : ℂ)))
      - Complex.I * Complex.exp (-Complex.I * (ff : ℂ) * (t1 : ℂ)) *
        ((a : ℂ) * (-2 + (ff : ℂ) * (t1 : ℂ) * ((ff : ℂ) * (t1 : ℂ) - 2 * Complex.I))
          + (ff : ℂ) * ((c : ℂ) * (ff : ℂ) + (b : ℂ) * ((ff : ℂ) * (t1 : ℂ) - Complex.I))))

/-- The inner segment loop of `FilonLagrange` (lines 44–56) for one
frequency `ff`: segment `ip` has bounds `t1 = Time[2*ip]`,
`t2 = Time[2*ip+2]` and coefficients `coeffs[ip]`. -/
def filonSum (ff : ℝ) (Time : List ℝ) (coeffs : List (ℝ × ℝ × ℝ)) : ℂ :=
  ∑ ip ∈ Finset.range (nseg Time),
    filonTerm ff (Time.getD (2 * ip) 0) (Time.getD (2 * ip + 2) 0)
      (coeffs.getD ip (0, 0, 0)).1 (coeffs.getD ip (0, 0, 0)).2.1
      (coeffs.getD ip (0, 0, 0)).2.2

/-- `FilonLagrange` (lines 19–58): for each frequency index, add the
segment sum to the incoming `DFT` entry.  Both call sites pass
`len(DFT) = len(freq)`. -/
def FilonLagrange (DFT : List ℂ) (freq Time : List ℝ) (coeffs : List (ℝ × ℝ × ℝ)) : List ℂ :=
  List.zipWith (fun d ff => d + filonSum ff Time coeffs) DFT freq

/-- Embeds `scipy.interpolate.lagrange(x, y).coef` for a three-point
segment: the coefficients `(a, b, c)`, highest degree first, of the
Lagrange interpolation polynomial
`y0·(t-x1)(t-x2)/((x0-x1)(x0-x2)) + y1·(t-x0)(t-x2)/((x1-x0)(x1-x2))
 + y2·(t-x0)(t-x1)/((x2-x0)(x2-x1))` expanded in the monomial basis. -/
def lagrangeCoeffs (x0 x1 x2 y0 y1 y2 : ℝ) : ℝ × ℝ × ℝ :=
  (y0 / ((x0 - x1) * (x0 - x2)) + y1 / ((x1 - x0) * (x1 - x2))
      + y2 / ((x2 - x0) * (x2 - x1)),
   -(y0 * (x1 + x2) / ((x0 - x1) * (x0 - x2)) + y1 * (x0 + x2) / ((x1 - x0) * (x1 - x2))
      + y2 * (x0 + x1) / ((x2 - x0) * (x2 - x1))),
   y0 * x1 * x2 / ((x0 - x1) * (x0 - x2)) + y1 * x0 * x2 / ((x1 - x0) * (x1 - x2))
      + y2 * x0 * x1 / ((x2 - x0) * (x2 - x1)))

/-- `LagrangeInterpol` (lines 60–89): iteration `ipp` of the loop
(`ip = 2*ipp + 1`) fits the triple `Time[2*ipp : 2*ipp+3]`,
`Signal[2*ipp : 2*ipp+3]` and writes row `ipp` of the `coeffs` buffer;
rows past `nseg Time` keep the buffer contents.  At its call site
(`AdmFromQ`, line 112) the buffer is a zero array with
`len(Time) // 2 ≥ nseg Time` rows. -/
def LagrangeInterpol (coeffs : List (ℝ × ℝ × ℝ)) (Time Signal : List ℝ) : List (ℝ × ℝ × ℝ) :=
  ((List.range (nseg Time)).map fun ipp =>
      lagrangeCoeffs (Time.getD (2 * ipp) 0) (Time.getD (2 * ipp + 1) 0)
        (Time.getD (2 * ipp + 2) 0) (Signal.getD (2 * ipp) 0)
        (Signal.getD (2 * ipp + 1) 0) (Signal.getD (2 * ipp + 2) 0))
    ++ coeffs.drop (nseg Time)

/-- The admittance loop of `AdmFromQ` (lines 115–117):
`Adm[i] = beta * (freq[i]**2 * DFT[i] + 1j * freq[i] * QACF[0])`,
factored over an arbitrary transform spectrum `DFT` and zero-lag value
`q0`. -/
def AdmFromDFT (freq : List ℝ) (DFT : List ℂ) (q0 : ℝ) : List ℂ :=
  (List.range freq.length).map fun i =>
    (beta : ℂ) * (((freq.getD i 0 : ℝ) : ℂ) ^ 2 * DFT.getD i 0
      + Complex.I * ((freq.getD i 0 : ℝ) : ℂ) * (q0 : ℝ))

/-- `AdmFromQ` (lines 91–118): zero coefficient buffer of
`len(Time) // 2` rows, Lagrange fits, Filon–Lagrange transform into a
zeroed spectrum, then the admittance loop with zero-lag value `QACF[0]`. -/
def AdmFromQ (Time QACF freq : List ℝ) : List ℂ :=
  AdmFromDFT freq
    (FilonLagrange (List.replicate freq.length 0) freq Time
      (LagrangeInterpol (List.replicate (Time.length / 2) (0, 0, 0)) Time QACF))
    (QACF.getD 0 0)

/-- `Imp = 1/Adm` (line 207): elementwise reciprocal of the admittance. -/
def Imp (Adm : List ℂ) : List ℂ := Adm.map fun y => 1 / y

/-- The window multiplier `W` of `Window` (line 159):
`(exp(-1*ep*tau) + 1) / (exp(ep*(t - tau)) + 1)` with decay parameters
abstracted. -/
def windowMult (e1 t1 x : ℝ) : ℝ :=
  (Real.exp (-1 * e1 * t1) + 1) / (Real.exp (e1 * (x - t1)) + 1)

/-- `Window` (lines 140–161): pointwise product of the ACF with the
window multiplier, one entry per time point, using the script constants
`ep` and `tau`. -/
def Window (ACF time : List ℝ) : List ℝ :=
  (List.range time.length).map fun i =>
    ACF.getD i 0 * windowMult ep tau (time.getD i 0)

/-- `np.logspace(s, e2, n)` with default endpoint handling: entry `i` is
`10 ** (s + i * (e2 - s) / (n - 1))`. -/
def logspace (s e2 : ℝ) (n : ℕ) : List ℝ :=
  (List.range n).map fun i : ℕ => (10 : ℝ) ^ (s + (i : ℝ) * ((e2 - s) / ((n : ℝ) - 1)))

/-- The frequency grid (lines 201–203):
`hif = 2*pi/(redTime[1]*3)`, `lof = 2*pi/redTime[-1]`,
`freq = np.logspace(log10(lof), log10(hif), nfreq)`. -/
def freq (redTime : List ℝ) : List ℝ :=
  logspace (Real.logb 10 ((2 * Real.pi) / redTime.getD (redTime.length - 1) 0))
    (Real.logb 10 ((2 * Real.pi) / (redTime.getD 1 0 * 3))) nfreq

/-- Value of the quadratic with coefficient triple `(a, b, c)`
(highest degree first, the layout of `coeffs` rows) at `t`. -/
def polyEval (abc : ℝ × ℝ × ℝ) (t : ℝ) : ℝ :=
  abc.1 * t ^ 2 + abc.2.1 * t + abc.2.2

/-! ### Plumbing lemmas -/

theorem getD_range_map {α : Type*} (d : α) (f : ℕ → α) (n i : ℕ) (h : i < n) :
    ((List.range n).map f).getD i d = f i := by
  rw [List.getD_eq_getElem _ _ (by simpa using h)]
  simp

theorem getD_dropLast (l : List ℝ) (j : ℕ) (h : j + 1 < l.length) :
    l.dropLast.getD j 0 = l.getD j 0 := by
  rw [List.getD_eq_getElem _ _ (by simp; omega), List.getD_eq_getElem _ _ (by omega),
    List.getElem_dropLast]

theorem getD_lagrangeInterpol (buf : List (ℝ × ℝ × ℝ)) (Time Signal : List ℝ) (i : ℕ)
    (hi : i < nseg Time) :
    (LagrangeInterpol buf Time Signal).getD i (0, 0, 0)
      = lagrangeCoeffs (Time.getD (2 * i) 0) (Time.getD (2 * i + 1) 0)
          (Time.getD (2 * i + 2) 0) (Signal.getD (2 * i) 0)
          (Signal.getD (2 * i + 1) 0) (Signal.getD (2 * i + 2) 0) := by
  unfold LagrangeInterpol
  have h1 : i < ((List.range (nseg Time)).map fun ipp =>
      lagrangeCoeffs (Time.getD (2 * ipp) 0) (Time.getD (2 * ipp + 1) 0)
        (Time.getD (2 * ipp + 2) 0) (Signal.getD (2 * ipp) 0)
        (Signal.getD (2 * ipp + 1) 0) (Signal.getD (2 * ipp + 2) 0)).length := by
    simpa using hi
  rw [List.getD_eq_getElem _ _ (by simp; omega), List.getElem_append_left h1]
  simp

theorem getD_map_mul (kk : ℝ) (l : List ℝ) (j : ℕ) :
    (l.map fun y => kk * y).getD j 0 = kk * l.getD j 0 := by
  rcases lt_or_ge j l.length with h | h
  · rw [List.getD_eq_getElem _ _ (by simpa using h), List.getElem_map,
      List.getD_eq_getElem _ _ h]
  · rw [List.getD_eq_default _ _ (by simpa using h), List.getD_eq_default _ _ h, mul_zero]

theorem getD_filonLagrange (fs Time : List ℝ) (coeffs : List (ℝ × ℝ × ℝ)) (K : ℕ)
    (hK : K < fs.length) :
    (FilonLagrange (List.replicate fs.length 0) fs Time coeffs).getD K 0
      = filonSum (fs.getD K 0) Time coeffs := by
  unfold FilonLagrange
  rw [List.getD_eq_getElem _ _ (by simpa using hK), List.getElem_zipWith,
    List.getElem_replicate, zero_add, List.getD_eq_getElem _ _ hK]

/-- Interpolation correctness of the Lagrange-basis coefficients: at
pairwise distinct nodes the fitted quadratic reproduces all three data
values. -/
theorem lagrangeCoeffs_interpolates (x0 x1 x2 y0 y1 y2 : ℝ) (h01 : x0 ≠ x1)
    (h02 : x0 ≠ x2) (h12 : x1 ≠ x2) :
    polyEval (lagrangeCoeffs x0 x1 x2 y0 y1 y2) x0 = y0
      ∧ polyEval (lagrangeCoeffs x0 x1 x2 y0 y1 y2) x1 = y1
      ∧ polyEval (lagrangeCoeffs x0 x1 x2 y0 y1 y2) x2 = y2 := by
  have d01 := sub_ne_zero.mpr h01
  have d02 := sub_ne_zero.mpr h02
  have d12 := sub_ne_zero.mpr h12
  have d10 := sub_ne_zero.mpr h01.symm
  have d20 := sub_ne_zero.mpr h02.symm
  have d21 := sub_ne_zero.mpr h12.symm
  refine ⟨?_, ?_, ?_⟩ <;>
    · unfold polyEval lagrangeCoeffs
      field_simp
      ring

/-- A degree-≤ 2 polynomial is determined by its values at three
pairwise distinct points. -/
theorem quadratic_unique (x0 x1 x2 a b c a2 b2 c2 : ℝ) (h01 : x0 ≠ x1) (h02 : x0 ≠ x2)
    (h12 : x1 ≠ x2)
    (e0 : a * x0 ^ 2 + b * x0 + c = a2 * x0 ^ 2 + b2 * x0 + c2)
    (e1 : a * x1 ^ 2 + b * x1 + c = a2 * x1 ^ 2 + b2 * x1 + c2)
    (e2 : a * x2 ^ 2 + b * x2 + c = a2 * x2 ^ 2 + b2 * x2 + c2) :
    a = a2 ∧ b = b2 ∧ c = c2 := by
  have k1 : (x0 - x1) * ((a - a2) * (x0 + x1) + (b - b2)) = 0 := by
    linear_combination e0 - e1
  have k1a : (a - a2) * (x0 + x1) + (b - b2) = 0 :=
    (mul_eq_zero.mp k1).resolve_left (sub_ne_zero.mpr h01)
  have k2 : (x1 - x2) * ((a - a2) * (x1 + x2) + (b - b2)) = 0 := by
    linear_combination e1 - e2
  have k2a : (a - a2) * (x1 + x2) + (b - b2) = 0 :=
    (mul_eq_zero.mp k2).resolve_left (sub_ne_zero.mpr h12)
  have kA : (x0 - x2) * (a - a2) = 0 := by linear_combination k1a - k2a
  have hA : a - a2 = 0 := (mul_eq_zero.mp kA).resolve_left (sub_ne_zero.mpr h02)
  have hB : b - b2 = 0 := by linear_combination k1a - (x0 + x1) * hA
  refine ⟨by linarith, by linarith, by linear_combination e0 - x0 ^ 2 * hA - x0 * hB⟩

/-! ### C2: the Transform-to-Response Mapper -/

/-- C2: for every raw transform spectrum `F`, frequency grid `fs`, and
zero-lag ACF value `q0`, the admittance at index `K` is
`beta * (fs[K]^2 * F[K] + i * fs[K] * q0)` and the impedance at index
`K` is the reciprocal of the admittance at index `K`. -/
theorem admittance_formula (fs : List ℝ) (F : List ℂ) (q0 : ℝ) (K : ℕ)
    (hK : K < fs.length) :
    (AdmFromDFT fs F q0).getD K 0
        = (beta : ℂ) * (((fs.getD K 0 : ℝ) : ℂ) ^ 2 * F.getD K 0
            + Complex.I * ((fs.getD K 0 : ℝ) : ℂ) * ((q0 : ℝ) : ℂ))
      ∧ (Imp (AdmFromDFT fs F q0)).getD K 0 = 1 / (AdmFromDFT fs F q0).getD K 0 := by
  constructor
  · unfold AdmFromDFT
    rw [getD_range_map _ _ _ _ hK]
  · have hlen : K < (AdmFromDFT fs F q0).length := by simpa [AdmFromDFT] using hK
    unfold Imp
    rw [List.getD_eq_getElem _ _ (by simpa using hlen), List.getElem_map,
      List.getD_eq_getElem _ _ hlen]

/-- Witness for `admittance_formula` at `fs = [2]`, `F = [3]`, `q0 = 5`,
`K = 0`. -/
theorem admittance_formula_w :
    (AdmFromDFT [2] [3] 5).getD 0 0
        = (beta : ℂ) * (((([(2 : ℝ)]).getD 0 0 : ℝ) : ℂ) ^ 2 * ([(3 : ℂ)]).getD 0 0
            + Complex.I * ((([(2 : ℝ)]).getD 0 0 : ℝ) : ℂ) * (((5 : ℝ) : ℝ) : ℂ))
      ∧ (Imp (AdmFromDFT [2] [3] 5)).getD 0 0 = 1 / (AdmFromDFT [2] [3] 5).getD 0 0 :=
  admittance_formula [2] [3] 5 0 (by norm_num)

/-! ### C8: impedance at a vanishing admittance -/

/-- C8 counterexample: at a frequency where the admittance is exactly
zero, `Imp` returns the division-by-zero value (the field convention
`1/0 = 0` here, `inf` in IEEE numpy) instead of failing: the code has no
`SingularResponseError` path. -/
theorem imp_zero_cex : Imp [(0 : ℂ)] = [0] := by
  simp [Imp]

/-- C8 amended: the impedance step never fails; even when some
admittance entry is exactly zero it maps every entry to its ambient
reciprocal and returns a full-length spectrum. -/
theorem imp_total (Adm : List ℂ) (_hz : ∃ K, K < Adm.length ∧ Adm.getD K 0 = 0) :
    (Imp Adm).length = Adm.length
      ∧ ∀ K, K < Adm.length → (Imp Adm).getD K 0 = 1 / Adm.getD K 0 := by
  refine ⟨by simp [Imp], fun K hK => ?_⟩
  unfold Imp
  rw [List.getD_eq_getElem _ _ (by simpa using hK), List.getElem_map,
    List.getD_eq_getElem _ _ hK]

/-- Witness for `imp_total` at the singular admittance `[0]`. -/
theorem imp_total_w :
    (Imp [(0 : ℂ)]).length = ([(0 : ℂ)]).length
      ∧ ∀ K, K < ([(0 : ℂ)]).length → (Imp [(0 : ℂ)]).getD K 0 = 1 / ([(0 : ℂ)]).getD K 0 :=
  imp_total [0] ⟨0, by norm_num, by simp⟩

/-! ### C10: the window preserves the zero-lag ACF value -/

/-- C10: the window multiplier equals `1` at `t = 0` for every choice of
decay parameters, and for every ACF and time array of equal nonzero
length with `time[0] = 0` the windowed ACF has the length of the time
array and its entry at index `0` is exactly `ACF[0]`. -/
theorem window_zero_lag :
    (∀ e1 t1 : ℝ, windowMult e1 t1 0 = 1) ∧
      ∀ ACF time : List ℝ, ACF.length = time.length → time.length ≠ 0 →
        time.getD 0 0 = 0 →
        (Window ACF time).length = time.length
          ∧ (Window ACF time).getD 0 0 = ACF.getD 0 0 := by
  have hmult : ∀ e1 t1 : ℝ, windowMult e1 t1 0 = 1 := by
    intro e1 t1
    unfold windowMult
    rw [show e1 * (0 - t1) = -1 * e1 * t1 by ring]
    exact div_self (by positivity)
  refine ⟨hmult, fun ACF time _ hne h0 => ⟨by simp [Window], ?_⟩⟩
  unfold Window
  rw [getD_range_map _ _ _ _ (Nat.pos_of_ne_zero hne), h0, hmult, mul_one]

/-- Witness for `window_zero_lag` at `ACF = [5, 7]`, `time = [0, 1]`
(and decay parameters `2`, `3` for the multiplier statement). -/
theorem window_zero_lag_w :
    windowMult 2 3 0 = 1 ∧
      ((Window [5, 7] [0, 1]).length = ([(0 : ℝ), 1]).length
        ∧ (Window [5, 7] [0, 1]).getD 0 0 = ([(5 : ℝ), 7]).getD 0 0) :=
  ⟨window_zero_lag.1 2 3, window_zero_lag.2 [5, 7] [0, 1] rfl (by simp) (by simp)⟩

/-! ### C6: Segment Interpolator round trip -/

/-- C6: for any three samples with pairwise distinct time values, the
quadratic returned by the Segment Interpolator for that segment,
evaluated at the three original time values, reproduces the original
signal values. -/
theorem interpolation_roundtrip (x0 x1 x2 y0 y1 y2 : ℝ) (h01 : x0 ≠ x1) (h02 : x0 ≠ x2)
    (h12 : x1 ≠ x2) :
    polyEval ((LagrangeInterpol (List.replicate 1 (0, 0, 0)) [x0, x1, x2]
        [y0, y1, y2]).getD 0 (0, 0, 0)) x0 = y0
      ∧ polyEval ((LagrangeInterpol (List.replicate 1 (0, 0, 0)) [x0, x1, x2]
          [y0, y1, y2]).getD 0 (0, 0, 0)) x1 = y1
      ∧ polyEval ((LagrangeInterpol (List.replicate 1 (0, 0, 0)) [x0, x1, x2]
          [y0, y1, y2]).getD 0 (0, 0, 0)) x2 = y2 := by
  have hres : (LagrangeInterpol (List.replicate 1 (0, 0, 0)) [x0, x1, x2]
      [y0, y1, y2]).getD 0 (0, 0, 0) = lagrangeCoeffs x0 x1 x2 y0 y1 y2 := by
    rw [getD_lagrangeInterpol _ _ _ _ (by norm_num [nseg])]
    simp
  rw [hres]
  exact lagrangeCoeffs_interpolates x0 x1 x2 y0 y1 y2 h01 h02 h12

/-- Witness for `interpolation_roundtrip` at nodes `0, 1, 2` with values
`3, 5, 4`. -/
theorem interpolation_roundtrip_w :
    polyEval ((LagrangeInterpol (List.replicate 1 (0, 0, 0)) [0, 1, 2]
        [3, 5, 4]).getD 0 (0, 0, 0)) 0 = 3
      ∧ polyEval ((LagrangeInterpol (List.replicate 1 (0, 0, 0)) [(0 : ℝ), 1, 2]
          [3, 5, 4]).getD 0 (0, 0, 0)) 1 = 5
      ∧ polyEval ((LagrangeInterpol (List.replicate 1 (0, 0, 0)) [(0 : ℝ), 1, 2]
          [3, 5, 4]).getD 0 (0, 0, 0)) 2 = 4 :=
  interpolation_roundtrip 0 1 2 3 5 4 (by norm_num) (by norm_num) (by norm_num)

/-! ### C3: the Segment Interpolator contract -/

/-- C3 counterexample: for the even-length series `[0, 1, 2, 3]`
(`n = 4`, strictly increasing) the interpolator called as in `AdmFromQ`
returns an array of `n // 2 = 2` coefficient triples, not
`(n-1) // 2 = 1`: the extra zero buffer row allocated by `AdmFromQ`
remains in the output. -/
theorem segment_count_cex :
    (LagrangeInterpol (List.replicate (([(0 : ℝ), 1, 2, 3]).length / 2) (0, 0, 0))
        [0, 1, 2, 3] [0, 1, 4, 9]).length ≠ (([(0 : ℝ), 1, 2, 3]).length - 1) / 2 := by
  simp [LagrangeInterpol, nseg]

/-- C3 amended: on a strictly increasing series of length `n ≥ 3` the
interpolator (with the zero buffer of `n // 2` rows allocated by
`AdmFromQ`) returns `n // 2` rows — equal to `(n-1) // 2` for odd `n`,
one more for even `n`, the extra row staying `(0,0,0)`; for every
`i < (n-1) // 2` the `i`-th row is the coefficient triple of the unique
degree-≤ 2 polynomial through the samples `2i, 2i+1, 2i+2`; and when `n`
is even the trailing unpaired sample influences no fitted row: the
fitted rows agree with those of the series with its last sample
dropped. -/
theorem segment_interpolator_contract (Time Signal : List ℝ) (hn : 3 ≤ Time.length)
    (hlen : Signal.length = Time.length) (hmono : Time.Pairwise (· < ·)) :
    (LagrangeInterpol (List.replicate (Time.length / 2) (0, 0, 0)) Time Signal).length
        = Time.length / 2
      ∧ (∀ i, i < (Time.length - 1) / 2 →
          (polyEval ((LagrangeInterpol (List.replicate (Time.length / 2) (0, 0, 0))
                Time Signal).getD i (0, 0, 0)) (Time.getD (2 * i) 0) = Signal.getD (2 * i) 0
            ∧ polyEval ((LagrangeInterpol (List.replicate (Time.length / 2) (0, 0, 0))
                Time Signal).getD i (0, 0, 0)) (Time.getD (2 * i + 1) 0)
                = Signal.getD (2 * i + 1) 0
            ∧ polyEval ((LagrangeInterpol (List.replicate (Time.length / 2) (0, 0, 0))
                Time Signal).getD i (0, 0, 0)) (Time.getD (2 * i + 2) 0)
                = Signal.getD (2 * i + 2) 0)
          ∧ ∀ a2 b2 c2 : ℝ,
              polyEval (a2, b2, c2) (Time.getD (2 * i) 0) = Signal.getD (2 * i) 0 →
              polyEval (a2, b2, c2) (Time.getD (2 * i + 1) 0) = Signal.getD (2 * i + 1) 0 →
              polyEval (a2, b2, c2) (Time.getD (2 * i + 2) 0) = Signal.getD (2 * i + 2) 0 →
              (a2, b2, c2) = (LagrangeInterpol (List.replicate (Time.length / 2) (0, 0, 0))
                Time Signal).getD i (0, 0, 0))
      ∧ (Time.length % 2 = 0 → ∀ i, i < (Time.length - 1) / 2 →
          (LagrangeInterpol (List.replicate (Time.length / 2) (0, 0, 0))
              Time Signal).getD i (0, 0, 0)
            = (LagrangeInterpol (List.replicate (Time.dropLast.length / 2) (0, 0, 0))
                Time.dropLast Signal.dropLast).getD i (0, 0, 0)) := by
  have hseg : nseg Time = (Time.length - 1) / 2 := rfl
  have hbounds : ∀ i, i < (Time.length - 1) / 2 → 2 * i + 2 < Time.length := by
    intro i hi
    omega
  have hdist : ∀ i, i < (Time.length - 1) / 2 →
      Time.getD (2 * i) 0 < Time.getD (2 * i + 1) 0
        ∧ Time.getD (2 * i + 1) 0 < Time.getD (2 * i + 2) 0
        ∧ Time.getD (2 * i) 0 < Time.getD (2 * i + 2) 0 := by
    intro i hi
    have h2 := hbounds i hi
    have hpg := List.pairwise_iff_getElem.mp hmono
    refine ⟨?_, ?_, ?_⟩ <;>
      · rw [List.getD_eq_getElem _ _ (by omega), List.getD_eq_getElem _ _ (by omega)]
        exact hpg _ _ (by omega) (by omega) (by omega)
  refine ⟨by simp [LagrangeInterpol, nseg]; omega, fun i hi => ?_, fun heven i hi => ?_⟩
  · obtain ⟨hd01, hd12, hd02⟩ := hdist i hi
    have hrow := getD_lagrangeInterpol (List.replicate (Time.length / 2) (0, 0, 0))
      Time Signal i (by simpa [nseg] using hi)
    obtain ⟨p0, p1, p2⟩ := lagrangeCoeffs_interpolates (Time.getD (2 * i) 0)
      (Time.getD (2 * i + 1) 0) (Time.getD (2 * i + 2) 0) (Signal.getD (2 * i) 0)
      (Signal.getD (2 * i + 1) 0) (Signal.getD (2 * i + 2) 0)
      (ne_of_lt hd01) (ne_of_lt hd02) (ne_of_lt hd12)
    constructor
    · rw [hrow]
      exact ⟨p0, p1, p2⟩
    · intro a2 b2 c2 q0 q1 q2
      rw [hrow]
      obtain ⟨hA, hB, hC⟩ := quadratic_unique (Time.getD (2 * i) 0)
        (Time.getD (2 * i + 1) 0) (Time.getD (2 * i + 2) 0) a2 b2 c2
        (lagrangeCoeffs (Time.getD (2 * i) 0) (Time.getD (2 * i + 1) 0)
          (Time.getD (2 * i + 2) 0) (Signal.getD (2 * i) 0) (Signal.getD (2 * i + 1) 0)
          (Signal.getD (2 * i + 2) 0)).1
        (lagrangeCoeffs (Time.getD (2 * i) 0) (Time.getD (2 * i + 1) 0)
          (Time.getD (2 * i + 2) 0) (Signal.getD (2 * i) 0) (Signal.getD (2 * i + 1) 0)
          (Signal.getD (2 * i + 2) 0)).2.1
        (lagrangeCoeffs (Time.getD (2 * i) 0) (Time.getD (2 * i + 1) 0)
          (Time.getD (2 * i + 2) 0) (Signal.getD (2 * i) 0) (Signal.getD (2 * i + 1) 0)
          (Signal.getD (2 * i + 2) 0)).2.2
        (ne_of_lt hd01) (ne_of_lt hd02) (ne_of_lt hd12)
        (by simpa [polyEval] using q0.trans p0.symm)
        (by simpa [polyEval] using q1.trans p1.symm)
        (by simpa [polyEval] using q2.trans p2.symm)
      rw [hA, hB, hC]
  · rw [getD_lagrangeInterpol _ _ _ _ (by simpa [nseg] using hi),
      getD_lagrangeInterpol _ _ _ _ (by simp [nseg]; omega),
      getD_dropLast Time (2 * i) (by omega), getD_dropLast Time (2 * i + 1) (by omega),
      getD_dropLast Time (2 * i + 2) (by omega),
      getD_dropLast Signal (2 * i) (by omega), getD_dropLast Signal (2 * i + 1) (by omega),
      getD_dropLast Signal (2 * i + 2) (by omega)]

/-- Witness for `segment_interpolator_contract` on the 4-point series
`Time = [0, 1, 2, 3]`, `Signal = [0, 1, 4, 9]`. -/
theorem segment_interpolator_contract_w :
    (LagrangeInterpol (List.replicate (([(0 : ℝ), 1, 2, 3]).length / 2) (0, 0, 0))
        [0, 1, 2, 3] [0, 1, 4, 9]).length = ([(0 : ℝ), 1, 2, 3]).length / 2
      ∧ (∀ i, i < (([(0 : ℝ), 1, 2, 3]).length - 1) / 2 →
          (polyEval ((LagrangeInterpol (List.replicate (([(0 : ℝ), 1, 2, 3]).length / 2)
                (0, 0, 0)) [0, 1, 2, 3] [0, 1, 4, 9]).getD i (0, 0, 0))
                (([(0 : ℝ), 1, 2, 3]).getD (2 * i) 0) = ([(0 : ℝ), 1, 4, 9]).getD (2 * i) 0
            ∧ polyEval ((LagrangeInterpol (List.replicate (([(0 : ℝ), 1, 2, 3]).length / 2)
                (0, 0, 0)) [0, 1, 2, 3] [0, 1, 4, 9]).getD i (0, 0, 0))
                (([(0 : ℝ), 1, 2, 3]).getD (2 * i + 1) 0)
                = ([(0 : ℝ), 1, 4, 9]).getD (2 * i + 1) 0
            ∧ polyEval ((LagrangeInterpol (List.replicate (([(0 : ℝ), 1, 2, 3]).length / 2)
                (0, 0, 0)) [0, 1, 2, 3] [0, 1, 4, 9]).getD i (0, 0, 0))
                (([(0 : ℝ), 1, 2, 3]).getD (2 * i + 2) 0)
                = ([(0 : ℝ), 1, 4, 9]).getD (2 * i + 2) 0)
          ∧ ∀ a2 b2 c2 : ℝ,
              polyEval (a2, b2, c2) (([(0 : ℝ), 1, 2, 3]).getD (2 * i) 0)
                  = ([(0 : ℝ), 1, 4, 9]).getD (2 * i) 0 →
              polyEval (a2, b2, c2) (([(0 : ℝ), 1, 2, 3]).getD (2 * i + 1) 0)
                  = ([(0 : ℝ), 1, 4, 9]).getD (2 * i + 1) 0 →
              polyEval (a2, b2, c2) (([(0 : ℝ), 1, 2, 3]).getD (2 * i + 2) 0)
                  = ([(0 : ℝ), 1, 4, 9]).getD (2 * i + 2) 0 →
              (a2, b2, c2) = (LagrangeInterpol (List.replicate
                (([(0 : ℝ), 1, 2, 3]).length / 2) (0, 0, 0)) [0, 1, 2, 3]
                [0, 1, 4, 9]).getD i (0, 0, 0))
      ∧ (([(0 : ℝ), 1, 2, 3]).length % 2 = 0 → ∀ i, i < (([(0 : ℝ), 1, 2, 3]).length - 1) / 2 →
          (LagrangeInterpol (List.replicate (([(0 : ℝ), 1, 2, 3]).length / 2) (0, 0, 0))
              [0, 1, 2, 3] [0, 1, 4, 9]).getD i (0, 0, 0)
            = (LagrangeInterpol (List.replicate (([(0 : ℝ), 1, 2, 3]).dropLast.length / 2)
                (0, 0, 0)) ([(0 : ℝ), 1, 2, 3]).dropLast ([(0 : ℝ), 1, 4, 9]).dropLast).getD i
                (0, 0, 0)) :=
  segment_interpolator_contract [0, 1, 2, 3] [0, 1, 4, 9] (by norm_num) rfl
    (by norm_num [List.pairwise_cons])

/-! ### C7: degenerate segments -/

/-- C7 counterexample: on the series `[0, 0, 1]` whose single segment has
two coinciding time values, the interpolator returns the coefficient row
`(3, 0, 0)` produced by evaluating the Lagrange quotients with zero
denominators (the ambient convention `x/0 = 0`; IEEE `inf`/`nan` with a
runtime warning in numpy) — it does not fail with any
`DegenerateInputError`. -/
theorem degenerate_cex :
    LagrangeInterpol (List.replicate 1 ((0 : ℝ), (0 : ℝ), (0 : ℝ))) [0, 0, 1] [1, 2, 3]
      = [(3, 0, 0)] := by
  norm_num [LagrangeInterpol, nseg, lagrangeCoeffs, List.range_succ]

/-- C7 amended: the Segment Interpolator has no error path: on every
series, including one in which some segment contains two coinciding time
values, it evaluates the Lagrange quotient formula as is (zero
denominators included) and returns the full row list. -/
theorem degenerate_total (buf : List (ℝ × ℝ × ℝ)) (Time Signal : List ℝ)
    (_hdeg : ∃ i, i < nseg Time ∧ (Time.getD (2 * i) 0 = Time.getD (2 * i + 1) 0
      ∨ Time.getD (2 * i) 0 = Time.getD (2 * i + 2) 0
      ∨ Time.getD (2 * i + 1) 0 = Time.getD (2 * i + 2) 0)) :
    (LagrangeInterpol buf Time Signal).length = nseg Time + (buf.length - nseg Time)
      ∧ ∀ i, i < nseg Time →
          (LagrangeInterpol buf Time Signal).getD i (0, 0, 0)
            = lagrangeCoeffs (Time.getD (2 * i) 0) (Time.getD (2 * i + 1) 0)
                (Time.getD (2 * i + 2) 0) (Signal.getD (2 * i) 0)
                (Signal.getD (2 * i + 1) 0) (Signal.getD (2 * i + 2) 0) :=
  ⟨by simp [LagrangeInterpol], fun i hi => getD_lagrangeInterpol buf Time Signal i hi⟩

/-- Witness for `degenerate_total` on the degenerate series `[0, 0, 1]`. -/
theorem degenerate_total_w :
    (LagrangeInterpol (List.replicate 1 ((0 : ℝ), (0 : ℝ), (0 : ℝ))) [0, 0, 1]
          [1, 2, 3]).length
        = nseg [0, 0, 1] + ((List.replicate 1 ((0 : ℝ), (0 : ℝ), (0 : ℝ))).length
            - nseg [0, 0, 1])
      ∧ ∀ i, i < nseg [0, 0, 1] →
          (LagrangeInterpol (List.replicate 1 ((0 : ℝ), (0 : ℝ), (0 : ℝ))) [0, 0, 1]
              [1, 2, 3]).getD i (0, 0, 0)
            = lagrangeCoeffs (([(0 : ℝ), 0, 1]).getD (2 * i) 0)
                (([(0 : ℝ), 0, 1]).getD (2 * i + 1) 0) (([(0 : ℝ), 0, 1]).getD (2 * i + 2) 0)
                (([(1 : ℝ), 2, 3]).getD (2 * i) 0) (([(1 : ℝ), 2, 3]).getD (2 * i + 1) 0)
                (([(1 : ℝ), 2, 3]).getD (2 * i + 2) 0) :=
  degenerate_total (List.replicate 1 ((0 : ℝ), (0 : ℝ), (0 : ℝ))) [0, 0, 1] [1, 2, 3]
    ⟨0, by norm_num [nseg], Or.inl (by norm_num)⟩

/-! ### C9: minimal input lengths -/

/-- C9 counterexample: on a 2-point series (`n = 2 < 3`) the pipeline
does not fail with any `MalformedInputError`: `AdmFromQ` runs with zero
segments and returns the admittance `beta * i * omega * QACF[0]`. -/
theorem short_input_cex :
    AdmFromQ [0, 1] [1, 1] [1] = [(beta : ℂ) * Complex.I] := by
  simp [AdmFromQ, AdmFromDFT, FilonLagrange, LagrangeInterpol, filonSum, nseg,
    List.range_succ]

/-- C9 amended: a 3-point series produces exactly one segment and one
fitted coefficient triple, and a series of length `< 3` does not fail:
with two samples the pipeline runs with zero segments and returns
`beta * (i * omega_k * QACF[0])` at every frequency index. -/
theorem minimal_series :
    (∀ Time Signal : List ℝ, Time.length = 3 →
        nseg Time = 1
          ∧ (LagrangeInterpol (List.replicate (Time.length / 2) (0, 0, 0))
              Time Signal).length = 1)
      ∧ ∀ Time QACF fs : List ℝ, Time.length = 2 →
          (AdmFromQ Time QACF fs).length = fs.length
            ∧ ∀ K, K < fs.length →
                (AdmFromQ Time QACF fs).getD K 0
                  = (beta : ℂ) * (Complex.I * ((fs.getD K 0 : ℝ) : ℂ)
                      * ((QACF.getD 0 0 : ℝ) : ℂ)) := by
  constructor
  · intro Time Signal h3
    refine ⟨by simp [nseg, h3], ?_⟩
    simp [LagrangeInterpol, nseg, h3]
  · intro Time QACF fs h2
    have hseg : nseg Time = 0 := by simp [nseg, h2]
    constructor
    · simp [AdmFromQ, AdmFromDFT]
    · intro K hK
      unfold AdmFromQ AdmFromDFT
      rw [getD_range_map _ _ _ _ hK,
        getD_filonLagrange fs Time _ K hK]
      unfold filonSum
      rw [hseg]
      simp only [Finset.range_zero, Finset.sum_empty, mul_zero, zero_add]

/-- Witness for `minimal_series`: the 3-point part at
`Time = [0, 1, 2]`, `Signal = [1, 2, 3]` and the 2-point part at
`Time = [0, 1]`, `QACF = [1, 1]`, `fs = [1]`. -/
theorem minimal_series_w :
    (nseg [0, 1, 2] = 1
        ∧ (LagrangeInterpol (List.replicate (([(0 : ℝ), 1, 2]).length / 2) (0, 0, 0))
            [0, 1, 2] [1, 2, 3]).length = 1)
      ∧ ((AdmFromQ [0, 1] [1, 1] [1]).length = ([(1 : ℝ)]).length
          ∧ ∀ K, K < ([(1 : ℝ)]).length →
              (AdmFromQ [0, 1] [1, 1] [1]).getD K 0
                = (beta : ℂ) * (Complex.I * ((([(1 : ℝ)]).getD K 0 : ℝ) : ℂ)
                    * ((([(1 : ℝ), 1]).getD 0 0 : ℝ) : ℂ))) :=
  ⟨minimal_series.1 [0, 1, 2] [1, 2, 3] rfl, minimal_series.2 [0, 1] [1, 1] [1] rfl⟩

/-! ### C5: linearity of the raw transform in the input signal -/

theorem lagrangeCoeffs_smul (kk x0 x1 x2 y0 y1 y2 : ℝ) :
    lagrangeCoeffs x0 x1 x2 (kk * y0) (kk * y1) (kk * y2)
      = (kk * (lagrangeCoeffs x0 x1 x2 y0 y1 y2).1,
         kk * (lagrangeCoeffs x0 x1 x2 y0 y1 y2).2.1,
         kk * (lagrangeCoeffs x0 x1 x2 y0 y1 y2).2.2) := by
  unfold lagrangeCoeffs
  simp only [Prod.mk.injEq]
  refine ⟨by ring, by ring, by ring⟩

theorem filonTerm_smul (kk ff t1 t2 a b c : ℝ) :
    filonTerm ff t1 t2 (kk * a) (kk * b) (kk * c) = (kk : ℂ) * filonTerm ff t1 t2 a b c := by
  unfold filonTerm
  push_cast
  ring

/-- C5: with the time axis fixed, scaling the input signal pointwise by a
constant `kk` scales the raw Fourier–Laplace transform produced by the
Segment Interpolator followed by the Oscillatory Quadrature Evaluator by
`kk` at every frequency of the grid. -/
theorem transform_linearity (Time Signal fs : List ℝ) (kk : ℝ) (K : ℕ)
    (hK : K < fs.length) :
    (FilonLagrange (List.replicate fs.length 0) fs Time
        (LagrangeInterpol (List.replicate (Time.length / 2) (0, 0, 0)) Time
          (Signal.map fun y => kk * y))).getD K 0
      = (kk : ℂ) * (FilonLagrange (List.replicate fs.length 0) fs Time
          (LagrangeInterpol (List.replicate (Time.length / 2) (0, 0, 0)) Time
            Signal)).getD K 0 := by
  rw [getD_filonLagrange _ _ _ _ hK, getD_filonLagrange _ _ _ _ hK]
  unfold filonSum
  rw [Finset.mul_sum]
  refine Finset.sum_congr rfl fun ip hip => ?_
  have hip' : ip < nseg Time := Finset.mem_range.mp hip
  rw [getD_lagrangeInterpol _ _ _ _ hip', getD_lagrangeInterpol _ _ _ _ hip',
    getD_map_mul, getD_map_mul, getD_map_mul, lagrangeCoeffs_smul]
  exact filonTerm_smul kk (fs.getD K 0) (Time.getD (2 * ip) 0) (Time.getD (2 * ip + 2) 0)
    (lagrangeCoeffs (Time.getD (2 * ip) 0) (Time.getD (2 * ip + 1) 0)
      (Time.getD (2 * ip + 2) 0) (Signal.getD (2 * ip) 0) (Signal.getD (2 * ip + 1) 0)
      (Signal.getD (2 * ip + 2) 0)).1
    (lagrangeCoeffs (Time.getD (2 * ip) 0) (Time.getD (2 * ip + 1) 0)
      (Time.getD (2 * ip + 2) 0) (Signal.getD (2 * ip) 0) (Signal.getD (2 * ip + 1) 0)
      (Signal.getD (2 * ip + 2) 0)).2.1
    (lagrangeCoeffs (Time.getD (2 * ip) 0) (Time.getD (2 * ip + 1) 0)
      (Time.getD (2 * ip + 2) 0) (Signal.getD (2 * ip) 0) (Signal.getD (2 * ip + 1) 0)
      (Signal.getD (2 * ip + 2) 0)).2.2

/-- Witness for `transform_linearity` at `Time = [0, 1, 2]`,
`Signal = [0, 1, 4]`, `fs = [1]`, `kk = 2`, `K = 0`. -/
theorem transform_linearity_w :
    (FilonLagrange (List.replicate ([(1 : ℝ)]).length 0) [1] [0, 1, 2]
        (LagrangeInterpol (List.replicate (([(0 : ℝ), 1, 2]).length / 2) (0, 0, 0)) [0, 1, 2]
          (([(0 : ℝ), 1, 4]).map fun y => 2 * y))).getD 0 0
      = ((2 : ℝ) : ℂ) * (FilonLagrange (List.replicate ([(1 : ℝ)]).length 0) [1] [0, 1, 2]
          (LagrangeInterpol (List.replicate (([(0 : ℝ), 1, 2]).length / 2) (0, 0, 0)) [0, 1, 2]
            [0, 1, 4])).getD 0 0 :=
  transform_linearity [0, 1, 2] [0, 1, 4] [1] 2 0 (by norm_num)

/-! ### C4: the frequency grid -/

theorem getD_lt_of_pairwise (l : List ℝ) (hp : List.Pairwise (· < ·) l) (i j : ℕ)
    (hij : i < j) (hj : j < l.length) : l.getD i 0 < l.getD j 0 := by
  rw [List.getD_eq_getElem _ _ (by omega), List.getD_eq_getElem _ _ hj]
  exact List.pairwise_iff_getElem.mp hp i j (by omega) hj hij

theorem logspace_getD (s e2 : ℝ) (i : ℕ) (h : i < 100) :
    (logspace s e2 100).getD i 0 = (10 : ℝ) ^ (s + (i : ℝ) * ((e2 - s) / 99)) := by
  unfold logspace
  rw [getD_range_map _ _ _ _ h]
  norm_num

theorem logspace_pos (s e2 : ℝ) (n : ℕ) : ∀ x ∈ logspace s e2 n, 0 < x := by
  intro x hx
  unfold logspace at hx
  obtain ⟨i, _, rfl⟩ := List.mem_map.mp hx
  exact Real.rpow_pos_of_pos (by norm_num) _

theorem logspace_strict_increasing (s e2 : ℝ) (n : ℕ) (h : s < e2) (hn : 2 ≤ n) :
    List.Pairwise (· < ·) (logspace s e2 n) := by
  unfold logspace
  refine (List.pairwise_lt_range n).map _ ?_
  intro a b hab
  apply (Real.rpow_lt_rpow_left_iff (by norm_num : (1 : ℝ) < 10)).mpr
  have hn2 : (2 : ℝ) ≤ (n : ℝ) := by exact_mod_cast hn
  have hstep : 0 < (e2 - s) / ((n : ℝ) - 1) := div_pos (by linarith) (by linarith)
  have hab2 : (a : ℝ) < (b : ℝ) := by exact_mod_cast hab
  nlinarith

/-- C4 counterexample: the reduced time array `[0, 1]` satisfies all the
stated hypotheses (`M = 2 ≥ 2`, `redTime[0] = 0`, `Δt = 1`), yet the
constructed grid is not strictly increasing: its low endpoint `2π/t_max
= 2π` exceeds its high endpoint `2π/(3Δt) = 2π/3`, so the log-spaced
grid decreases. -/
theorem freq_grid_cex : ¬ List.Pairwise (· < ·) (freq [(0 : ℝ), 1]) := by
  have hfr : freq [(0 : ℝ), 1]
      = logspace (Real.logb 10 (2 * Real.pi)) (Real.logb 10 (2 * Real.pi / 3)) 100 := by
    unfold freq nfreq
    norm_num
  intro hp
  rw [hfr] at hp
  have hlen : (logspace (Real.logb 10 (2 * Real.pi))
      (Real.logb 10 (2 * Real.pi / 3)) 100).length = 100 := by
    simp [logspace]
  have h2 := getD_lt_of_pairwise _ hp 0 1 (by norm_num) (by omega)
  rw [logspace_getD _ _ 0 (by norm_num), logspace_getD _ _ 1 (by norm_num)] at h2
  have h3 := (Real.rpow_lt_rpow_left_iff (by norm_num : (1 : ℝ) < 10)).mp h2
  norm_num at h3
  have hES : Real.logb 10 (2 * Real.pi / 3) < Real.logb 10 (2 * Real.pi) :=
    Real.logb_lt_logb (by norm_num) (by positivity)
      (div_lt_self (by positivity) (by norm_num))
  linarith

/-- C4 amended: for a reduced time array of length `M ≥ 2` with
`redTime[0] = 0`, positive spacing `Δt = redTime[1] - redTime[0]`, and
`3Δt < t_max = redTime[M-1]` (as holds for the script's uniform grids of
at least 5 points), the frequency grid starts at `2π/t_max`, ends at
`2π/(3Δt)`, is strictly increasing, and all its values are strictly
positive — zero never appears; without `3Δt < t_max` the grid is still
strictly positive but fails to increase (see the counterexample). -/
theorem freq_grid_bounds (redTime : List ℝ) (_hM : 2 ≤ redTime.length)
    (h0 : redTime.getD 0 0 = 0) (hdt : 0 < redTime.getD 1 0 - redTime.getD 0 0)
    (hlt : 3 * (redTime.getD 1 0 - redTime.getD 0 0)
      < redTime.getD (redTime.length - 1) 0) :
    (freq redTime).getD 0 0 = 2 * Real.pi / redTime.getD (redTime.length - 1) 0
      ∧ (freq redTime).getD (nfreq - 1) 0
          = 2 * Real.pi / (3 * (redTime.getD 1 0 - redTime.getD 0 0))
      ∧ List.Pairwise (· < ·) (freq redTime)
      ∧ ∀ x ∈ freq redTime, 0 < x := by
  have hdt1 : 0 < redTime.getD 1 0 := by
    rw [h0, sub_zero] at hdt
    exact hdt
  have htmax : 0 < redTime.getD (redTime.length - 1) 0 := by nlinarith
  have hlof : 0 < 2 * Real.pi / redTime.getD (redTime.length - 1) 0 := by positivity
  have hhif : 0 < 2 * Real.pi / (redTime.getD 1 0 * 3) := by positivity
  have hlofhif : 2 * Real.pi / redTime.getD (redTime.length - 1) 0
      < 2 * Real.pi / (redTime.getD 1 0 * 3) := by
    apply div_lt_div_of_pos_left (by positivity) (by positivity)
    nlinarith
  have hlog : Real.logb 10 (2 * Real.pi / redTime.getD (redTime.length - 1) 0)
      < Real.logb 10 (2 * Real.pi / (redTime.getD 1 0 * 3)) :=
    Real.logb_lt_logb (by norm_num) hlof hlofhif
  refine ⟨?_, ?_, ?_, ?_⟩
  · unfold freq nfreq
    rw [logspace_getD _ _ 0 (by norm_num)]
    simp only [Nat.cast_zero, zero_mul, add_zero]
    exact Real.rpow_logb (by norm_num) (by norm_num) hlof
  · unfold freq nfreq
    rw [logspace_getD _ _ 99 (by norm_num)]
    rw [show Real.logb 10 (2 * Real.pi / redTime.getD (redTime.length - 1) 0)
          + (99 : ℕ) * ((Real.logb 10 (2 * Real.pi / (redTime.getD 1 0 * 3))
              - Real.logb 10 (2 * Real.pi / redTime.getD (redTime.length - 1) 0)) / 99)
        = Real.logb 10 (2 * Real.pi / (redTime.getD 1 0 * 3)) by push_cast; ring]
    rw [Real.rpow_logb (by norm_num) (by norm_num) hhif, h0, sub_zero]
    ring
  · unfold freq
    exact logspace_strict_increasing _ _ _ hlog (by norm_num [nfreq])
  · unfold freq
    exact logspace_pos _ _ _

/-- Witness for `freq_grid_bounds` on the uniform 6-point reduced time
array `[0, 1, 2, 3, 4, 5]` (`Δt = 1`, `t_max = 5 > 3`). -/
theorem freq_grid_bounds_w :
    (freq [0, 1, 2, 3, 4, 5]).getD 0 0
        = 2 * Real.pi / ([(0 : ℝ), 1, 2, 3, 4, 5]).getD (([(0 : ℝ), 1, 2, 3, 4, 5]).length - 1) 0
      ∧ (freq [0, 1, 2, 3, 4, 5]).getD (nfreq - 1) 0
          = 2 * Real.pi / (3 * (([(0 : ℝ), 1, 2, 3, 4, 5]).getD 1 0
              - ([(0 : ℝ), 1, 2, 3, 4, 5]).getD 0 0))
      ∧ List.Pairwise (· < ·) (freq [0, 1, 2, 3, 4, 5])
      ∧ ∀ x ∈ freq [(0 : ℝ), 1, 2, 3, 4, 5], 0 < x :=
  freq_grid_bounds [0, 1, 2, 3, 4, 5] (by norm_num) (by norm_num) (by norm_num)
    (by norm_num)

/-! ### C1: the Oscillatory Quadrature Evaluator computes exact segment
integrals -/

/-- The closed-form segment term of `FilonLagrange` is the exact
Fourier–Laplace integral of the segment's quadratic over the segment
bounds: for `ff ≠ 0`,
`filonTerm ff t1 t2 a b c = ∫ t in t1..t2, (a t² + b t + c) e^(-i ff t) dt`.
Proved by the fundamental theorem of calculus with the explicit complex
antiderivative `e^(-i ff t) · (i a ff² t² + (2 a ff + i b ff²) t
 - 2 i a + b ff + i c ff²) / ff³`. -/
theorem filonTerm_eq_integral (ff t1 t2 a b c : ℝ) (hff : ff ≠ 0) :
    filonTerm ff t1 t2 a b c
      = ∫ t in t1..t2,
          ((a : ℂ) * (t : ℂ) ^ 2 + (b : ℂ) * (t : ℂ) + (c : ℂ))
            * Complex.exp (-Complex.I * (ff : ℂ) * (t : ℂ)) := by
  have hffc : (ff : ℂ) ≠ 0 := Complex.ofReal_ne_zero.mpr hff
  have key : ∀ t : ℝ,
      HasDerivAt (fun s : ℝ => (1 / (ff : ℂ) ^ 3) * (Complex.exp (-Complex.I * (ff : ℂ) * (s : ℂ))
          * (Complex.I * (a : ℂ) * (ff : ℂ) ^ 2 * (s : ℂ) ^ 2
            + (2 * (a : ℂ) * (ff : ℂ) + Complex.I * (b : ℂ) * (ff : ℂ) ^ 2) * (s : ℂ)
            + (-2 * Complex.I * (a : ℂ) + (b : ℂ) * (ff : ℂ)
                + Complex.I * (c : ℂ) * (ff : ℂ) ^ 2))))
        (((a : ℂ) * (t : ℂ) ^ 2 + (b : ℂ) * (t : ℂ) + (c : ℂ))
          * Complex.exp (-Complex.I * (ff : ℂ) * (t : ℂ))) t := by
    intro t
    have hlin : HasDerivAt (fun s : ℝ => ((s : ℝ) : ℂ)) 1 t :=
      (hasDerivAt_id ((t : ℝ) : ℂ)).comp_ofReal
    have hexpz : HasDerivAt (fun z : ℂ => Complex.exp (-Complex.I * (ff : ℂ) * z))
        (Complex.exp (-Complex.I * (ff : ℂ) * ((t : ℝ) : ℂ)) * (-Complex.I * (ff : ℂ)))
        ((t : ℝ) : ℂ) := by
      simpa using ((hasDerivAt_id ((t : ℝ) : ℂ)).const_mul (-Complex.I * (ff : ℂ))).cexp
    have hexp : HasDerivAt (fun s : ℝ => Complex.exp (-Complex.I * (ff : ℂ) * (s : ℂ)))
        (Complex.exp (-Complex.I * (ff : ℂ) * ((t : ℝ) : ℂ)) * (-Complex.I * (ff : ℂ))) t :=
      hexpz.comp_ofReal
    have hsq : HasDerivAt (fun s : ℝ => ((s : ℂ)) ^ 2) (2 * ((t : ℝ) : ℂ)) t := by
      simpa using (hasDerivAt_pow 2 ((t : ℝ) : ℂ)).comp_ofReal
    have hpoly : HasDerivAt (fun s : ℝ =>
        Complex.I * (a : ℂ) * (ff : ℂ) ^ 2 * (s : ℂ) ^ 2
          + (2 * (a : ℂ) * (ff : ℂ) + Complex.I * (b : ℂ) * (ff : ℂ) ^ 2) * (s : ℂ)
          + (-2 * Complex.I * (a : ℂ) + (b : ℂ) * (ff : ℂ)
              + Complex.I * (c : ℂ) * (ff : ℂ) ^ 2))
        ((Complex.I * (a : ℂ) * (ff : ℂ) ^ 2) * (2 * ((t : ℝ) : ℂ))
          + (2 * (a : ℂ) * (ff : ℂ) + Complex.I * (b : ℂ) * (ff : ℂ) ^ 2) * 1) t := by
      have h1 : HasDerivAt (fun s : ℝ => Complex.I * (a : ℂ) * (ff : ℂ) ^ 2 * (s : ℂ) ^ 2)
          ((Complex.I * (a : ℂ) * (ff : ℂ) ^ 2) * (2 * ((t : ℝ) : ℂ))) t :=
        hsq.const_mul _
      have h2 : HasDerivAt (fun s : ℝ =>
          (2 * (a : ℂ) * (ff : ℂ) + Complex.I * (b : ℂ) * (ff : ℂ) ^ 2) * (s : ℂ))
          ((2 * (a : ℂ) * (ff : ℂ) + Complex.I * (b : ℂ) * (ff : ℂ) ^ 2) * 1) t :=
        hlin.const_mul _
      exact (h1.add h2).add_const _
    have hmul := (hexp.mul hpoly).const_mul (1 / (ff : ℂ) ^ 3)
    convert hmul using 1
    field_simp
    ring_nf
    simp only [Complex.I_sq]
    ring
  have hcont : Continuous fun t : ℝ =>
      ((a : ℂ) * (t : ℂ) ^ 2 + (b : ℂ) * (t : ℂ) + (c : ℂ))
        * Complex.exp (-Complex.I * (ff : ℂ) * (t : ℂ)) := by
    fun_prop
  rw [intervalIntegral.integral_eq_sub_of_hasDerivAt (fun t _ => key t)
    (hcont.intervalIntegrable t1 t2)]
  unfold filonTerm
  field_simp
  ring_nf
  simp only [Complex.I_sq]
  ring

/-- C1: for every grid of strictly positive frequencies, every time
array with segment bounds `(Time[2i], Time[2i+2])`, and every
coefficient array, the Oscillatory Quadrature Evaluator (started from
the zeroed output buffer, as in `AdmFromQ`) returns at index `K` the
stated closed form — equivalently, the sum over all segments of the
exact integral of `p_i(t)·exp(-i ω_K t)` over `[t1_i, t2_i]` where
`p_i(t) = a_i t² + b_i t + c_i`. -/
theorem filonLagrange_exact (fs Time : List ℝ) (coeffs : List (ℝ × ℝ × ℝ)) (K : ℕ)
    (hK : K < fs.length) (hpos : ∀ f ∈ fs, 0 < f) :
    (FilonLagrange (List.replicate fs.length 0) fs Time coeffs).getD K 0
      = ∑ ip ∈ Finset.range (nseg Time),
          ∫ t in (Time.getD (2 * ip) 0)..(Time.getD (2 * ip + 2) 0),
            (((coeffs.getD ip (0, 0, 0)).1 : ℂ) * (t : ℂ) ^ 2
              + ((coeffs.getD ip (0, 0, 0)).2.1 : ℂ) * (t : ℂ)
              + ((coeffs.getD ip (0, 0, 0)).2.2 : ℂ))
              * Complex.exp (-Complex.I * ((fs.getD K 0 : ℝ) : ℂ) * (t : ℂ)) := by
  rw [getD_filonLagrange _ _ _ _ hK]
  unfold filonSum
  refine Finset.sum_congr rfl fun ip _ => ?_
  have hf : 0 < fs.getD K 0 := by
    refine hpos _ ?_
    rw [List.getD_eq_getElem _ _ hK]
    exact List.getElem_mem hK
  exact filonTerm_eq_integral _ _ _ _ _ _ (ne_of_gt hf)

/-- Witness for `filonLagrange_exact` at `fs = [1]`, `Time = [0, 1, 2]`,
`coeffs = [(1, 2, 3)]`, `K = 0`. -/
theorem filonLagrange_exact_w :
    (FilonLagrange (List.replicate ([(1 : ℝ)]).length 0) [1] [0, 1, 2]
        [(1, 2, 3)]).getD 0 0
      = ∑ ip ∈ Finset.range (nseg [0, 1, 2]),
          ∫ t in (([(0 : ℝ), 1, 2]).getD (2 * ip) 0)..(([(0 : ℝ), 1, 2]).getD (2 * ip + 2) 0),
            (((([((1 : ℝ), (2 : ℝ), (3 : ℝ))]).getD ip (0, 0, 0)).1 : ℂ) * (t : ℂ) ^ 2
              + ((([((1 : ℝ), (2 : ℝ), (3 : ℝ))]).getD ip (0, 0, 0)).2.1 : ℂ) * (t : ℂ)
              + ((([((1 : ℝ), (2 : ℝ), (3 : ℝ))]).getD ip (0, 0, 0)).2.2 : ℂ))
              * Complex.exp (-Complex.I * ((([(1 : ℝ)]).getD 0 0 : ℝ) : ℂ) * (t : ℂ)) :=
  filonLagrange_exact [1] [0, 1, 2] [(1, 2, 3)] 0 (by norm_num) (by norm_num)

end

end CalcZ
